import Mathlib

/-!
Verification of the capability-binding utilities of the repository:
the `impl` trait-implementation helper, the `dyn` receiver-binding proxy,
and the concrete `Square` capability table (`draw`, `resize`).

Shallow embedding conventions:
- JavaScript numbers are modelled as `Int`; every numeric computation that
  the claims mention (10 * 2 = 20, 20 * 3 = 60) is exact in IEEE doubles,
  so the integer model is faithful on the inputs under consideration.
- Mutable records live on an explicit heap (`Heap`), addressed by `Addr`;
  receiver values that alias the same record are equal addresses.
- Observable side effects are the heap and the console output, collected in
  the program state `St`; a JavaScript function is a semantic map from its
  full argument list and the state to either a thrown error or a result
  value with a new state (`Fn`).
- A capability table is an association list from operation name to entry,
  preserving key order; lookup takes the first match, as property access
  does on plain objects.
-/

namespace RustTS

/-- Heap addresses of records. -/
abbrev Addr := Nat

/-- Plain data values: primitives and references to heap records.
`undef` is the JavaScript value undefined. -/
inductive Value where
  | num (n : Int)
  | str (s : String)
  | bool (b : Bool)
  | addr (a : Addr)
  | undef
deriving DecidableEq, Repr

/-- A record is a field-name-to-value bag, in insertion order. -/
abbrev Record := List (String × Value)

/-- The heap maps addresses to records. -/
abbrev Heap := List (Addr × Record)

/-- Program state: the heap plus the console output (one entry per log line). -/
structure St where
  heap : Heap
  output : List String
deriving DecidableEq, Repr

/-- Runtime failures: type errors raised by the runtime, and user-thrown values. -/
inductive Error where
  | typeError (msg : String)
  | thrown (v : Value)
deriving DecidableEq, Repr

/-- A JavaScript function as a semantic object: it receives its full argument
list (receiver first, by the convention of the repository) and the state, and
either throws or returns a value together with the updated state. -/
abbrev Fn := List Value → St → Except Error (Value × St)

/-- An entry of a capability table: a function, or a plain non-function value. -/
inductive Entry where
  | fn (f : Fn)
  | val (v : Value)

/-- A capability table: operation names mapped to entries, in insertion order. -/
abbrev Table := List (String × Entry)

/-- Property lookup on a table: first entry whose key matches, as on objects. -/
def tableGet : Table → String → Option Entry
  | [], _ => none
  | (k, e) :: rest, p => if k = p then some e else tableGet rest p

/-- Field lookup on a record. -/
def recGet : Record → String → Option Value
  | [], _ => none
  | (k, v) :: rest, p => if k = p then some v else recGet rest p

/-- Field assignment on a record: replaces the first occurrence, appends if
the field is missing, as property assignment does on objects. -/
def recSet : Record → String → Value → Record
  | [], p, v => [(p, v)]
  | (k, w) :: rest, p, v => if k = p then (p, v) :: rest else (k, w) :: recSet rest p v

/-- Record lookup in the heap. -/
def heapGet : Heap → Addr → Option Record
  | [], _ => none
  | (a, r) :: rest, b => if a = b then some r else heapGet rest b

/-- Record update in the heap. -/
def heapSet : Heap → Addr → Record → Heap
  | [], b, r => [(b, r)]
  | (a, q) :: rest, b, r => if a = b then (b, r) :: rest else (a, q) :: heapSet rest b r

/-- Embedding of the source function impl of RUST_LIKE_TS_TYPES.ts: it returns
its implementation table argument unchanged. The generic type parameters exist
only for the static check and have no runtime counterpart. -/
def impl (table : Table) : Table := table

/-- The proxy object returned by the source function dyn: it wraps the target
table and closes over the bound instance. No entry is copied or evaluated at
construction time. -/
structure DynView where
  target : Table
  inst : Value

/-- Embedding of the body of dyn: new Proxy(impl, handler) packaging the
target table with the instance. -/
def dyn (impl : Table) (inst : Value) : DynView := ⟨impl, inst⟩

/-- Embedding of the get trap of the proxy: Reflect.get on the target, then,
when the value is a function, a fresh closure prepending the instance to the
received arguments; any other value passes through unchanged. A missing key
stays missing. -/
def DynView.get (v : DynView) (prop : String) : Option Entry :=
  match tableGet v.target prop with
  | some (Entry.fn f) => some (Entry.fn (fun args s => f (v.inst :: args) s))
  | some (Entry.val x) => some (Entry.val x)
  | none => none

/-- Calling a property of the bound view: accessing the property through the
get trap and invoking the result. Invoking a non-function (or a missing
property, which is undefined) raises a TypeError. -/
def DynView.call (v : DynView) (prop : String) (args : List Value) (s : St) :
    Except Error (Value × St) :=
  match v.get prop with
  | some (Entry.fn g) => g args s
  | some (Entry.val _) => Except.error (Error.typeError "is not a function")
  | none => Except.error (Error.typeError "is not a function")

/-- Calling an operation of the raw table directly with an explicit receiver:
T[k](recv, args...). Invoking a non-function or missing entry raises a
TypeError, exactly as for the bound view. -/
def callDirect (T : Table) (prop : String) (recv : Value) (args : List Value)
    (s : St) : Except Error (Value × St) :=
  match tableGet T prop with
  | some (Entry.fn f) => f (recv :: args) s
  | some (Entry.val _) => Except.error (Error.typeError "is not a function")
  | none => Except.error (Error.typeError "is not a function")

theorem dynView_call_eq_callDirect (T : Table) (r : Value) (k : String)
    (args : List Value) (s : St) :
    (dyn T r).call k args s = callDirect T k r args s := by
  unfold DynView.call DynView.get callDirect dyn
  cases h : tableGet T k with
  | none => rfl
  | some e => cases e <;> rfl

/-- Ghost instrumentation of the construction step of dyn: the constructor of
the proxy runs no entry of the table, so it appends nothing to the ghost log
of entry invocations. -/
def tracedDyn (impl : Table) (inst : Value) (log : List (String × List Value)) :
    DynView × List (String × List Value) := (dyn impl inst, log)

/-- Ghost instrumentation of a bound call: the same computation as
DynView.call after dyn, with an event (key, full argument list handed to the
underlying table entry) appended to the ghost log at the moment the entry is
invoked. Entries cannot see or touch the log. -/
def tracedBoundCall (T : Table) (r : Value) (k : String) (args : List Value)
    (s : St) (log : List (String × List Value)) :
    Except Error (Value × St) × List (String × List Value) :=
  match tableGet T k with
  | some (Entry.fn f) => (f (r :: args) s, log ++ [(k, r :: args)])
  | some (Entry.val _) => (Except.error (Error.typeError "is not a function"), log)
  | none => (Except.error (Error.typeError "is not a function"), log)

/-- Effectful embedding of evaluating the expression dyn(T, r): the body of
dyn allocates the proxy and performs no state operation, so the state passes
through unchanged and the returned view references the table itself. -/
def dynEff (impl : Table) (inst : Value) (s : St) : DynView × St := (dyn impl inst, s)

/-- Sequencing two stateful computations, stopping at the first thrown error. -/
def seq2 (c1 c2 : St → Except Error (Value × St)) (s : St) :
    Except Error (Value × St) :=
  match c1 s with
  | Except.ok (_, s2) => c2 s2
  | Except.error e => Except.error e

/-- Modelled from the spec (refinement comparison only): the eager binding
strategy, constructing one bound closure per key of the table at bind time,
prepending the receiver, and passing non-function entries through unchanged. -/
def bindEagerSpec (T : Table) (r : Value) : Table :=
  T.map (fun kv =>
    (kv.1, match kv.2 with
      | Entry.fn f => Entry.fn (fun args s => f (r :: args) s)
      | Entry.val v => Entry.val v))

/-- Embedding of the source operation Square.draw: logs the formatted line
built from the size field of the receiver record and the delay argument. -/
def Square.draw : Fn := fun args s =>
  match args with
  | [Value.addr a, Value.num delay] =>
    match heapGet s.heap a with
    | some rec =>
      match recGet rec "size" with
      | some (Value.num sz) =>
        Except.ok (Value.undef,
          { s with output := s.output ++
              ["Drawing a square with size " ++ toString sz ++ " after " ++
                toString delay ++ "ms"] })
      | _ => Except.error (Error.typeError "size is not a number")
    | none => Except.error (Error.typeError "dangling record reference")
  | _ => Except.error (Error.typeError "bad arguments to draw")

/-- Embedding of the source operation Square.resize: self.size *= factor,
an in-place update of the receiver record on the heap, returning undefined. -/
def Square.resize : Fn := fun args s =>
  match args with
  | [Value.addr a, Value.num factor] =>
    match heapGet s.heap a with
    | some rec =>
      match recGet rec "size" with
      | some (Value.num sz) =>
        Except.ok (Value.undef,
          { s with heap := heapSet s.heap a (recSet rec "size" (Value.num (sz * factor))) })
      | _ => Except.error (Error.typeError "size is not a number")
    | none => Except.error (Error.typeError "dangling record reference")
  | _ => Except.error (Error.typeError "bad arguments to resize")

/-- The source capability table Square, with its two operations in source
order: draw, then resize. -/
def Square.table : Table :=
  [("draw", Entry.fn Square.draw), ("resize", Entry.fn Square.resize)]

/-- An always-throwing operation, used to witness error propagation. -/
def throwingOp : Fn := fun _ _ => Except.error (Error.thrown (Value.str "E"))

/-- A table holding one throwing operation and one plain non-function entry. -/
def mixedTable : Table :=
  [("op", Entry.fn throwingOp), ("tag", Entry.val (Value.str "shape"))]

/-- The initial heap of the concrete resize scenario: one record with size 10
at address 0. -/
def squareHeap0 : Heap := [(0, [("size", Value.num 10)])]

/-- The initial state of the concrete resize scenario: the record only, empty
console output. -/
def squareSt0 : St := ⟨squareHeap0, []⟩

/-- The size field of the record at an address, if any. -/
def sizeAt (s : St) (a : Addr) : Option Value :=
  match heapGet s.heap a with
  | some rec => recGet rec "size"
  | none => none

/-- The two-step bound resize run of the concrete scenario: bind, resize by 2,
rebind, resize by 3; returns the size field after each step when both calls
succeed. -/
def squareScenario : Option (Option Value × Option Value) :=
  match (dyn Square.table (Value.addr 0)).call "resize" [Value.num 2] squareSt0 with
  | Except.ok (_, s1) =>
    match (dyn Square.table (Value.addr 0)).call "resize" [Value.num 3] s1 with
    | Except.ok (_, s2) => some (sizeAt s1 0, sizeAt s2 0)
    | Except.error _ => none
  | Except.error _ => none

/-- C1: for every capability table T, receiver r, key k present in T whose
value is a function, arguments args and state s, invoking the key through the
bound view, bind(T, r)[k](args...), yields the same result and the same
observable side effects (heap and console output, or thrown error) as the
direct invocation T[k](r, args...). -/
theorem c1_bound_call_matches_direct (T : Table) (r : Value) (k : String)
    (f : Fn) (args : List Value) (s : St) (h : tableGet T k = some (Entry.fn f)) :
    (dyn T r).call k args s = f (r :: args) s ∧
    (dyn T r).call k args s = callDirect T k r args s := by
  refine ⟨?_, dynView_call_eq_callDirect T r k args s⟩
  unfold DynView.call DynView.get dyn
  rw [h]

/-- C1 witness: the draw operation of the Square table, invoked through the
bound view at address 0 with delay 500, agrees with the direct call. -/
theorem c1_witness :
    (dyn Square.table (Value.addr 0)).call "draw" [Value.num 500] squareSt0 =
      Square.draw (Value.addr 0 :: [Value.num 500]) squareSt0 ∧
    (dyn Square.table (Value.addr 0)).call "draw" [Value.num 500] squareSt0 =
      callDirect Square.table "draw" (Value.addr 0) [Value.num 500] squareSt0 :=
  c1_bound_call_matches_direct Square.table (Value.addr 0) "draw" Square.draw
    [Value.num 500] squareSt0 rfl

/-- C2: for every table T, receiver r, and key k of T whose value is not a
function, accessing bind(T, r)[k] returns the entry of T for k unchanged,
not wrapped. -/
theorem c2_nonfunction_passthrough (T : Table) (r : Value) (k : String)
    (v : Value) (h : tableGet T k = some (Entry.val v)) :
    (dyn T r).get k = some (Entry.val v) := by
  unfold DynView.get dyn
  rw [h]

/-- C2 witness: the non-function tag entry of mixedTable passes through the
bound view unchanged. -/
theorem c2_witness :
    (dyn mixedTable Value.undef).get "tag" = some (Entry.val (Value.str "shape")) :=
  c2_nonfunction_passthrough mixedTable Value.undef "tag" (Value.str "shape") rfl

/-- C3: constructing bind(T, r) evaluates no entry of T (the instrumented
construction appends no invocation event to the ghost log), and a bound call
on a function entry invokes the underlying entry exactly once, at call time,
with the receiver prepended and the rest arguments forwarded unchanged and in
order: the ghost log gains exactly the one event (k, r :: args), and the
result agrees with the uninstrumented bound call. -/
theorem c3_lazy_single_invocation (T : Table) (r : Value) (k : String)
    (f : Fn) (args : List Value) (s : St) (log : List (String × List Value))
    (h : tableGet T k = some (Entry.fn f)) :
    tracedDyn T r log = (dyn T r, log) ∧
    tracedBoundCall T r k args s log = (f (r :: args) s, log ++ [(k, r :: args)]) ∧
    (tracedBoundCall T r k args s log).1 = (dyn T r).call k args s := by
  refine ⟨rfl, ?_, ?_⟩
  · unfold tracedBoundCall
    rw [h]
  · unfold tracedBoundCall DynView.call DynView.get dyn
    rw [h]

/-- C3 witness: one bound resize call on the Square table, starting from the
empty ghost log, records exactly the event (resize, [addr 0, 2]). -/
theorem c3_witness :
    tracedDyn Square.table (Value.addr 0) [] = (dyn Square.table (Value.addr 0), []) ∧
    tracedBoundCall Square.table (Value.addr 0) "resize" [Value.num 2] squareSt0 [] =
      (Square.resize (Value.addr 0 :: [Value.num 2]) squareSt0,
        [] ++ [("resize", Value.addr 0 :: [Value.num 2])]) ∧
    (tracedBoundCall Square.table (Value.addr 0) "resize" [Value.num 2] squareSt0 []).1 =
      (dyn Square.table (Value.addr 0)).call "resize" [Value.num 2] squareSt0 :=
  c3_lazy_single_invocation Square.table (Value.addr 0) "resize" Square.resize
    [Value.num 2] squareSt0 [] rfl

/-- C4: bind is non-mutating on its table argument: evaluating dyn(T, r)
returns the state unchanged, the produced view references the table T itself
unchanged, and every direct call T[k](r2, args...) in the post-bind state
behaves exactly as it did in the pre-bind state. -/
theorem c4_bind_nonmutating (T : Table) (r : Value) (s : St) (k : String)
    (r2 : Value) (args : List Value) :
    (dynEff T r s).2 = s ∧
    (dynEff T r s).1.target = T ∧
    callDirect T k r2 args (dynEff T r s).2 = callDirect T k r2 args s :=
  ⟨rfl, rfl, rfl⟩

/-- C5: if the underlying operation T[k](r, args...) throws an error e, the
bound call bind(T, r)[k](args...) throws the very same error e: the binder
neither swallows, wraps, nor rewrites the failure. -/
theorem c5_error_propagation (T : Table) (r : Value) (k : String) (f : Fn)
    (args : List Value) (s : St) (e : Error)
    (hk : tableGet T k = some (Entry.fn f))
    (he : f (r :: args) s = Except.error e) :
    (dyn T r).call k args s = Except.error e := by
  unfold DynView.call DynView.get dyn
  rw [hk]
  exact he

/-- C5 witness: the throwing operation of mixedTable throws the user value E
through the bound view unchanged. -/
theorem c5_witness :
    (dyn mixedTable (Value.addr 0)).call "op" [] squareSt0 =
      Except.error (Error.thrown (Value.str "E")) :=
  c5_error_propagation mixedTable (Value.addr 0) "op" throwingOp [] squareSt0
    (Error.thrown (Value.str "E")) rfl rfl

/-- C6: on the concrete scenario of the spec, with the source Square table
and the record at address 0 initially of size 10, bind(table, r).resize(2)
leaves the record at size 20, and a subsequent bind(table, r).resize(3)
leaves it at size 60: mutations through the bound view hit the original heap
record, and each call sees the current state of the receiver. -/
theorem c6_resize_scenario :
    squareScenario = some (some (Value.num 20), some (Value.num 60)) := rfl

/-- C7: the bound view has exactly the key set of T: a property access on
bind(T, r) succeeds precisely when the key is present in T. -/
theorem c7_same_key_set (T : Table) (r : Value) (k : String) :
    ((dyn T r).get k).isSome = (tableGet T k).isSome := by
  unfold DynView.get dyn
  cases h : tableGet T k with
  | none => rfl
  | some e => cases e <;> rfl

/-- C8: bindings of the same table are independent: a two-call sequence
through the views bind(T, r1) and bind(T, r2) is exactly the corresponding
two-call sequence of direct invocations on T, for all receivers (including
equal or aliased addresses) and all states; moreover each single bound call
depends only on T, the key, the own receiver of the view, the arguments and
the state at call time, never on the other binding. -/
theorem c8_bindings_independent (T : Table) (r1 r2 : Value) (k1 k2 : String)
    (a1 a2 : List Value) (s : St) :
    seq2 ((dyn T r1).call k1 a1) ((dyn T r2).call k2 a2) s =
      seq2 (callDirect T k1 r1 a1) (callDirect T k2 r2 a2) s ∧
    (dyn T r1).call k1 a1 s = callDirect T k1 r1 a1 s := by
  constructor
  · unfold seq2
    rw [dynView_call_eq_callDirect T r1 k1 a1 s]
    cases callDirect T k1 r1 a1 s with
    | ok p => exact dynView_call_eq_callDirect T r2 k2 a2 p.2
    | error e => rfl
  · exact dynView_call_eq_callDirect T r1 k1 a1 s

/-- C9: the lazy property-intercepting proxy of the source and the eager
strategy of the spec (one bound closure per key at bind time) are observably
equivalent: for every table, receiver and key, lookup in the eagerly bound
table returns exactly what the proxy get trap returns — the same wrapped
closure on function entries, the same unwrapped value on non-function
entries, and absence on absent keys. -/
theorem c9_eager_lazy_equivalent (T : Table) (r : Value) (k : String) :
    tableGet (bindEagerSpec T r) k = (dyn T r).get k := by
  induction T with
  | nil => rfl
  | cons kv rest ih =>
    obtain ⟨k1, e⟩ := kv
    by_cases h : k1 = k
    · subst h
      cases e <;> simp [bindEagerSpec, tableGet, dyn, DynView.get]
    · unfold bindEagerSpec at ih ⊢
      simp only [List.map_cons]
      unfold DynView.get dyn at ih ⊢
      simp only [tableGet, h, if_false]
      exact ih

/-- C10: the impl helper is the identity function: it returns the
implementation table passed to it unchanged, with no wrapping, copying or
modification, so defining a table via impl has no runtime effect. -/
theorem c10_impl_identity (t : Table) : impl t = t := rfl

end RustTS
